import Mathlib

/-!
# Verification of the epub-compressor pipeline

Shallow embedding of `src/dist/index.d.ts` (epub-compress.js): an EPUB
optimizer that extracts a zip to a working tree, minifies/optimizes files
in place, and repacks the tree into an EPUB whose first entry is the
stored (uncompressed) `mimetype` file.

External minification/compression engines (html-minifier-terser, csso,
terser, imagemin) are opaque in the source and are modelled as function
parameters.  Everything the repository itself computes (extension
dispatch, the per-file try/catch loop, the SVG regex minifier, the
image write-back policy, the PNG quality-range formula, the assembler)
is translated from the source.

File contents are byte lists (`List Nat`); paths are relative-path
strings.  JS numbers in the PNG quality formula are modelled as `ℚ`.
-/

namespace EpubCompress

/-- A file's content as a list of bytes (Node `Buffer`, or utf8 text). -/
abbrev Content := List Nat

/-- An entry of the working tree: a file identified by its path relative
to the tree root, with its current byte content.  Models the extracted
temp directory that the pipeline mutates in place. -/
structure FileEntry where
  path : String
  content : Content
deriving DecidableEq, Repr

/-! ## `path.extname` and `.toLowerCase()`

The source computes `path.extname(filePath).toLowerCase()`
(src/dist/index.d.ts:89).  Node's `extname` returns the substring of the
basename from its last `.` (inclusive) to the end, and `""` when the
basename has no dot or its only dot is the leading character. -/

/-- The suffix of `l` after the last occurrence of `c`; `l` itself when
`c` does not occur.  Used for the basename (suffix after the last `/`). -/
def suffixAfterLast (c : Char) : List Char → List Char
  | [] => []
  | x :: xs =>
    if xs.contains c then suffixAfterLast c xs
    else if x = c then xs
    else x :: xs

/-- The suffix of `l` from its last `.` (inclusive); `[]` if no dot. -/
def fromLastDot : List Char → List Char
  | [] => []
  | x :: xs =>
    if xs.contains '.' then fromLastDot xs
    else if x = '.' then x :: xs
    else []

/-- Model of Node `path.extname` on a relative path: the extension of the
basename, `""` when there is none or the basename's only dot leads it. -/
def extname (p : String) : String :=
  match suffixAfterLast '/' p.data with
  | [] => ⟨[]⟩
  | _ :: rest => if rest.contains '.' then ⟨fromLastDot rest⟩ else ⟨[]⟩

/-- ASCII lower-casing of a string, modelling JS `.toLowerCase()` on
extension strings (extensions are ASCII). -/
def toLowerStr (s : String) : String := ⟨s.data.map Char.toLower⟩

/-! ## External engine interfaces -/

/-- Result object of the `terser` engine (`src/dist/index.d.ts:146`): it
may carry an `error`, and may carry minified `code`.  A `code` field is
JS-truthy exactly when it is present and non-empty. -/
structure TerserResult where
  error : Option String
  code : Option Content
deriving DecidableEq, Repr

/-- An imagemin plugin instance as configured by `optimizeImage`
(src/dist/index.d.ts:156-164): mozjpeg carries the quality, pngquant
carries the derived min/max quality range. -/
inductive Plugin where
  | mozjpeg (quality : ℚ)
  | pngquant (qmin qmax : ℚ)
deriving DecidableEq, Repr

/-- The opaque external engines the pipeline delegates to.  Text engines
may fail (throw); `imagemin.buffer` may fail as well. -/
structure Engines where
  htmlMinify : Content → Except String Content
  cssoMinify : Content → Except String Content
  terser : Content → TerserResult
  imageminBuffer : Content → List Plugin → Except String Content

/-- CLI options relevant to file processing: the `--images` flag and the
`--quality` value (src/dist/index.d.ts:61-64). -/
structure Opts where
  images : Bool
  quality : ℚ
deriving DecidableEq, Repr

/-! ## Transformers -/

/-- `minifyJsFile` (src/dist/index.d.ts:144-152): run terser; if the
result has an `error`, throw it (before any write); write the minified
code back only when `r.code` is truthy (present and non-empty);
otherwise the file keeps its original content. -/
def minifyJsFile (terserMin : Content → TerserResult) (src : Content) :
    Except String Content :=
  let r := terserMin src
  match r.error with
  | some e => Except.error e
  | none =>
    match r.code with
    | some c => if c.isEmpty then Except.ok src else Except.ok c
    | none => Except.ok src

/-- `minifyHtmlFile` (src/dist/index.d.ts:123-138): delegate to the
html-minifier-terser engine (fixed option set), write back its output. -/
def minifyHtmlFile (htmlMin : Content → Except String Content)
    (src : Content) : Except String Content :=
  htmlMin src

/-- `minifyCssFile` (src/dist/index.d.ts:139-143): delegate to csso,
write back its output. -/
def minifyCssFile (cssoMin : Content → Except String Content)
    (src : Content) : Except String Content :=
  cssoMin src

/-! ### `minifySvg` (src/dist/index.d.ts:173-181)

`src.replace(/<!--.../g, "").replace(/\s\x7b2,\x7d/g, " ").trim()`,
modelled bytewise over the ASCII whitespace class. -/

/-- ASCII whitespace bytes matched by the whitespace class in
`minifySvg`'s regexes. -/
def isWsByte (b : Nat) : Bool :=
  b == 32 || b == 9 || b == 10 || b == 11 || b == 12 || b == 13

/-- Whether the byte sequence 45 45 62 (the closing comment delimiter)
occurs somewhere in `l`. -/
def hasClose : List Nat → Bool
  | [] => false
  | a :: rest => (a == 45 && rest.take 2 == [45, 62]) || hasClose rest

/-- Rest of the input after the first closing comment delimiter
(bytes 45 45 62); `[]` when none occurs (only used under `hasClose`). -/
def afterClose : List Nat → List Nat
  | [] => []
  | a :: rest =>
    if a == 45 && rest.take 2 == [45, 62] then rest.drop 2
    else afterClose rest

theorem afterClose_length_le (l : List Nat) :
    (afterClose l).length ≤ l.length := by
  induction l with
  | nil => simp [afterClose]
  | cons a rest ih =>
    rw [afterClose]
    split
    · have := List.length_drop 2 rest
      simp [this]
      omega
    · exact Nat.le_trans ih (Nat.le_succ _)

/-- First `replace` of `minifySvg`: globally delete lazy comment blocks
(open delimiter bytes 60 33 45 45 up to the nearest close 45 45 62); an
unterminated open delimiter does not match and is kept. -/
def removeComments : List Nat → List Nat
  | [] => []
  | b :: rest =>
    if b == 60 && rest.take 3 == [33, 45, 45] then
      if hasClose (rest.drop 3) then removeComments (afterClose (rest.drop 3))
      else b :: removeComments rest
    else b :: removeComments rest
termination_by l => l.length
decreasing_by
  · calc (afterClose (rest.drop 3)).length
        ≤ (rest.drop 3).length := afterClose_length_le _
      _ ≤ rest.length := by simp [List.length_drop]
      _ < rest.length + 1 := Nat.lt_succ_self _
  · exact Nat.lt_succ_self _
  · exact Nat.lt_succ_self _

/-- Second `replace` of `minifySvg`: each run of two or more whitespace
bytes becomes a single space (byte 32); a lone whitespace byte stays. -/
def collapseWs : List Nat → List Nat
  | [] => []
  | a :: rest =>
    if isWsByte a then
      if (rest.take 1).any isWsByte then
        32 :: collapseWs (rest.dropWhile isWsByte)
      else a :: collapseWs rest
    else a :: collapseWs rest
termination_by l => l.length
decreasing_by
  · calc (rest.dropWhile isWsByte).length
        ≤ rest.length :=
          (List.IsSuffix.sublist (List.dropWhile_suffix isWsByte)).length_le
      _ < rest.length + 1 := Nat.lt_succ_self _
  · exact Nat.lt_succ_self _
  · exact Nat.lt_succ_self _

/-- JS `String.prototype.trim`: strip leading and trailing whitespace. -/
def trimBytes (l : List Nat) : List Nat :=
  ((l.dropWhile isWsByte).reverse.dropWhile isWsByte).reverse

/-- `minifySvg` (src/dist/index.d.ts:173-181): remove comment blocks,
collapse whitespace runs, trim. -/
def minifySvg (src : Content) : Content :=
  trimBytes (collapseWs (removeComments src))

/-! ### `optimizeImage` (src/dist/index.d.ts:153-172) -/

/-- Invoke `imagemin.buffer` and apply the write-back policy
(src/dist/index.d.ts:168-172): overwrite only when the optimized buffer
is strictly smaller, otherwise keep the original bytes. -/
def runImagemin (imageminBuffer : Content → List Plugin → Except String Content)
    (input : Content) (plugins : List Plugin) : Except String Content :=
  match imageminBuffer input plugins with
  | Except.error e => Except.error e
  | Except.ok out =>
    Except.ok (if out.length < input.length then out else input)

/-- `optimizeImage` (src/dist/index.d.ts:153-172): for `.jpg`/`.jpeg` use
mozjpeg at the given quality; for `.png` use pngquant with the range
`[max(0.1, (quality-30)/100), quality/100]`; for any other extension
return without touching the file.  The source binds
`ext = path.extname(filePath).toLowerCase()` once; it is inlined here. -/
def optimizeImage (imageminBuffer : Content → List Plugin → Except String Content)
    (filePath : String) (quality : ℚ) (input : Content) :
    Except String Content :=
  if toLowerStr (extname filePath) = ".jpg" ∨
      toLowerStr (extname filePath) = ".jpeg" then
    runImagemin imageminBuffer input [Plugin.mozjpeg quality]
  else if toLowerStr (extname filePath) = ".png" then
    runImagemin imageminBuffer input
      [Plugin.pngquant (max (1/10 : ℚ) ((quality - 30) / 100)) (quality / 100)]
  else
    Except.ok input

/-! ## File classification and the processing loop
(`processFiles`, src/dist/index.d.ts:85-122) -/

/-- The processing action chosen for a file. -/
inductive Action where
  | markup
  | style
  | script
  | vector
  | raster
  | skip
deriving DecidableEq, Repr

/-- The extension dispatch of `processFiles` (src/dist/index.d.ts:91-115)
as a pure classifier: the if/else chain on the lower-cased extension, in
source order (markup, style, script, raster-when-enabled, vector, skip). -/
def classify (ext : String) (images : Bool) : Action :=
  if ext = ".html" ∨ ext = ".xhtml" ∨ ext = ".htm" ∨ ext = ".xml" ∨
      ext = ".opf" then Action.markup
  else if ext = ".css" then Action.style
  else if ext = ".js" then Action.script
  else if images ∧ (ext = ".jpg" ∨ ext = ".jpeg" ∨ ext = ".png") then
    Action.raster
  else if ext = ".svg" then Action.vector
  else Action.skip

/-- The body of the `processFiles` loop for one file: dispatch on the
lower-cased extension and run the corresponding transformer; a `skip`
leaves the content untouched.  The result is the file's new content, or
the error the transformer threw. -/
def processFile (eng : Engines) (opts : Opts) (path : String)
    (content : Content) : Except String Content :=
  match classify (toLowerStr (extname path)) opts.images with
  | Action.markup => minifyHtmlFile eng.htmlMinify content
  | Action.style => minifyCssFile eng.cssoMinify content
  | Action.script => minifyJsFile eng.terser content
  | Action.raster => optimizeImage eng.imageminBuffer path opts.quality content
  | Action.vector => Except.ok (minifySvg content)
  | Action.skip => Except.ok content

/-- The try/catch around one file (src/dist/index.d.ts:90-120): a
transformer error is caught, the file keeps its original content, and
the loop continues. -/
def procEntry (eng : Engines) (opts : Opts) (f : FileEntry) : FileEntry :=
  match processFile eng opts f.path f.content with
  | Except.ok c => { path := f.path, content := c }
  | Except.error _ => f

/-- `processFiles` (src/dist/index.d.ts:85-122): walk the tree in
enumeration order and process each file in place, isolating per-file
failures. -/
def processFiles (eng : Engines) (opts : Opts) :
    List FileEntry → List FileEntry
  | [] => []
  | f :: rest => procEntry eng opts f :: processFiles eng opts rest

/-! ## The EPUB assembler (`createEpub`, src/dist/index.d.ts:182-214)

The assembler checks for the root-level `mimetype` file, then opens the
output stream, appends `mimetype` first in store (no-compression) mode,
sorts the full paths returned by `walk` (equivalently the relative
paths, since all full paths share the `dir + "/"` prefix), and appends
every other file at the archiver's configured zlib level, named by its
relative path.  The filesystem read `archive.file(file, ...)` is
modelled as a lookup of the (unique) tree entry with that path. -/

/-- Lexicographic comparison of char lists by code point, modelling the
default JS `Array.prototype.sort` comparison used by `allFiles.sort()`
(src/dist/index.d.ts:203). -/
def lexLeChars : List Char → List Char → Bool
  | [], _ => true
  | _ :: _, [] => false
  | a :: as, b :: bs =>
    if a.toNat < b.toNat then true
    else if b.toNat < a.toNat then false
    else lexLeChars as bs

/-- Lexicographic order on path strings. -/
def lexLe (a b : String) : Prop := lexLeChars a.data b.data = true

instance : DecidableRel lexLe := fun a b => by
  unfold lexLe; infer_instance

theorem lexLeChars_total (x y : List Char) :
    lexLeChars x y = true ∨ lexLeChars y x = true := by
  induction x generalizing y with
  | nil => left; rfl
  | cons a as ih =>
    cases y with
    | nil => right; rfl
    | cons b bs =>
      by_cases hab : a.toNat < b.toNat
      · left; simp [lexLeChars, hab]
      · by_cases hba : b.toNat < a.toNat
        · right; simp [lexLeChars, hba]
        · have h1 : lexLeChars (a :: as) (b :: bs) = lexLeChars as bs := by
            simp [lexLeChars, hab, hba]
          have h2 : lexLeChars (b :: bs) (a :: as) = lexLeChars bs as := by
            simp [lexLeChars, hab, hba]
          rw [h1, h2]; exact ih bs

theorem lexLeChars_trans (x y z : List Char) (hxy : lexLeChars x y = true)
    (hyz : lexLeChars y z = true) : lexLeChars x z = true := by
  induction x generalizing y z with
  | nil => rfl
  | cons a as ih =>
    cases y with
    | nil => simp [lexLeChars] at hxy
    | cons b bs =>
      cases z with
      | nil => simp [lexLeChars] at hyz
      | cons c cs =>
        simp only [lexLeChars] at hxy hyz ⊢
        split_ifs at hxy hyz ⊢ with h1 h2 h3 h4 h5 h6 <;>
          first
          | rfl
          | omega
          | (exact ih bs cs hxy hyz)

theorem char_eq_of_toNat_eq {a b : Char} (h : a.toNat = b.toNat) : a = b :=
  Char.ext (UInt32.ext h)

theorem lexLeChars_antisymm (x y : List Char) (hxy : lexLeChars x y = true)
    (hyx : lexLeChars y x = true) : x = y := by
  induction x generalizing y with
  | nil =>
    cases y with
    | nil => rfl
    | cons b bs => simp [lexLeChars] at hyx
  | cons a as ih =>
    cases y with
    | nil => simp [lexLeChars] at hxy
    | cons b bs =>
      by_cases h1 : a.toNat < b.toNat
      · rw [lexLeChars] at hyx
        simp [Nat.lt_asymm h1, h1] at hyx
      · by_cases h2 : b.toNat < a.toNat
        · rw [lexLeChars] at hxy
          simp [h1, h2] at hxy
        · have hab : a = b := char_eq_of_toNat_eq (by omega)
          rw [lexLeChars] at hxy hyx
          simp [h1, h2] at hxy hyx
          cases hab
          exact congrArg (a :: ·) (ih bs hxy hyx)

instance : IsTotal String lexLe := ⟨fun a b => lexLeChars_total a.data b.data⟩

instance : IsTrans String lexLe :=
  ⟨fun a b c => lexLeChars_trans a.data b.data c.data⟩

instance : IsAntisymm String lexLe := by
  constructor
  intro a b hab hba
  have h := lexLeChars_antisymm a.data b.data hab hba
  cases a
  cases b
  exact congrArg String.mk h

instance : IsRefl String lexLe := by
  constructor
  intro a
  rcases lexLeChars_total a.data a.data with h | h <;> exact h

/-- Decidable equality for `Except`, used to evaluate the model on
concrete inputs. -/
def exceptDecEq {ε α : Type} [DecidableEq ε] [DecidableEq α] :
    DecidableEq (Except ε α)
  | Except.error a, Except.error b =>
    if h : a = b then isTrue (by rw [h]) else isFalse (by simp [h])
  | Except.error _, Except.ok _ => isFalse (by simp)
  | Except.ok _, Except.error _ => isFalse (by simp)
  | Except.ok a, Except.ok b =>
    if h : a = b then isTrue (by rw [h]) else isFalse (by simp [h])

instance {ε α : Type} [DecidableEq ε] [DecidableEq α] :
    DecidableEq (Except ε α) := exceptDecEq

/-- Compression mode of one output-archive entry: `store` is the
zero-compression mode forced for `mimetype`; every other entry is
deflated at the archiver's configured zlib level. -/
inductive Mode where
  | store
  | deflate (level : Nat)
deriving DecidableEq, Repr

/-- One entry of the output archive: name, byte content, and the
compression mode it was appended with. -/
structure ZipEntry where
  name : String
  content : Content
  mode : Mode
deriving DecidableEq, Repr

/-- Content of the tree file at relative path `p` (the disk read); `[]`
is a dead default, paths passed in always exist in the tree. -/
def lookupContent (tree : List FileEntry) (p : String) : Content :=
  ((tree.find? (fun f => f.path == p)).map FileEntry.content).getD []

/-- `createEpub` (src/dist/index.d.ts:182-214): fail if no root
`mimetype` exists (before the output stream is opened); otherwise emit
`mimetype` first in store mode, then all remaining files sorted by path,
each deflated at the configured level and named by its relative path. -/
def createEpub (tree : List FileEntry) (level : Nat) :
    Except String (List ZipEntry) :=
  match tree.find? (fun f => f.path == "mimetype") with
  | none => Except.error "No mimetype file found at root of EPUB. Aborting."
  | some mime =>
    let sortedPaths := List.insertionSort lexLe (tree.map FileEntry.path)
    Except.ok
      ({ name := "mimetype", content := mime.content, mode := Mode.store } ::
        (sortedPaths.filter (fun p => p != "mimetype")).map (fun p =>
          { name := p, content := lookupContent tree p,
            mode := Mode.deflate level }))

/-! ## The orchestrator (`run`, src/dist/index.d.ts:45-70, 238-241)

`run` makes the temp dir, extracts, processes, assembles, and only then
removes the temp dir; any rejection skips the remaining steps and lands
in `run().catch`, which exits with status 1 — so the temp dir survives
every fatal path.  The state of the output path is `none` when the
output stream was never opened (extraction failure, or the
missing-mimetype throw, which happens before `createWriteStream`). -/

/-- Observable outcome of one job invocation: the process exit code, the
archive written at the output path (`none` = output never opened), and
whether the working-tree temp directory was removed. -/
structure RunResult where
  exitCode : Nat
  output : Option (List ZipEntry)
  tmpRemoved : Bool
deriving DecidableEq, Repr

/-- The `run` orchestration (src/dist/index.d.ts:45-70) after argument
parsing, taking the extraction outcome as input: extraction failure →
exit 1, nothing written, temp dir kept; missing mimetype → exit 1,
nothing written, temp dir kept; success → archive written, temp dir
removed, exit 0. -/
def runJob (eng : Engines) (opts : Opts) (level : Nat)
    (extracted : Except String (List FileEntry)) : RunResult :=
  match extracted with
  | Except.error _ => { exitCode := 1, output := none, tmpRemoved := false }
  | Except.ok tree =>
    match createEpub (processFiles eng opts tree) level with
    | Except.error _ => { exitCode := 1, output := none, tmpRemoved := false }
    | Except.ok entries =>
      { exitCode := 0, output := some entries, tmpRemoved := true }

/-! ## Concrete fixtures used to evaluate the model -/

/-- The ASCII bytes of `application/epub+zip`. -/
def mimeBytes : Content :=
  [97, 112, 112, 108, 105, 99, 97, 116, 105, 111, 110, 47,
   101, 112, 117, 98, 43, 122, 105, 112]

/-- Engines where every external engine succeeds returning its input. -/
def idEngines : Engines where
  htmlMinify := fun c => Except.ok c
  cssoMinify := fun c => Except.ok c
  terser := fun c => { error := none, code := some c }
  imageminBuffer := fun c _ => Except.ok c

/-- Engines whose terser rejects the content `[1]` (a corrupt script) and
appends byte 2 otherwise; the markup engine appends byte 9. -/
def mixedEngines : Engines where
  htmlMinify := fun c => Except.ok (c ++ [9])
  cssoMinify := fun c => Except.ok c
  terser := fun c =>
    if c = [1] then { error := some "parse error", code := none }
    else { error := none, code := some (c ++ [2]) }
  imageminBuffer := fun c _ => Except.ok c

/-- An imagemin engine that always returns the 1-byte buffer `[7]`. -/
def shrinkImagemin : Content → List Plugin → Except String Content :=
  fun _ _ => Except.ok [7]

/-- A terser stub that always reports an error. -/
def errTerser : Content → TerserResult :=
  fun _ => { error := some "boom", code := none }

/-- A terser stub that reports no error and an empty (JS-falsy) code. -/
def emptyTerser : Content → TerserResult :=
  fun _ => { error := none, code := some [] }

/-- A terser stub that minifies by appending byte 2. -/
def okTerser : Content → TerserResult :=
  fun c => { error := none, code := some (c ++ [2]) }

/-- Default options: images disabled, quality 80. -/
def defaultOpts : Opts := { images := false, quality := 80 }

/-- A small extracted working tree with a root `mimetype`. -/
def sampleTree : List FileEntry :=
  [{ path := "mimetype", content := mimeBytes },
   { path := "OEBPS/b.txt", content := [1] },
   { path := "OEBPS/a.txt", content := [3] }]

/-- `sampleTree` enumerated in a different `walk` order. -/
def sampleTreePerm : List FileEntry :=
  [{ path := "OEBPS/a.txt", content := [3] },
   { path := "mimetype", content := mimeBytes },
   { path := "OEBPS/b.txt", content := [1] }]

/-- The archive the assembler produces from `sampleTree` at level 9. -/
def sampleArchive : List ZipEntry :=
  [{ name := "mimetype", content := mimeBytes, mode := Mode.store },
   { name := "OEBPS/a.txt", content := [3], mode := Mode.deflate 9 },
   { name := "OEBPS/b.txt", content := [1], mode := Mode.deflate 9 }]

/-- A working tree with no root `mimetype` entry. -/
def noMimeTree : List FileEntry :=
  [{ path := "OEBPS/a.txt", content := [3] }]

/-- A batch with one corrupt script and two valid assets. -/
def corruptTree : List FileEntry :=
  [{ path := "bad.js", content := [1] },
   { path := "ok.js", content := [5] },
   { path := "c.html", content := [7] }]

/-! ## Helper lemmas -/

theorem procEntry_path (eng : Engines) (opts : Opts) (f : FileEntry) :
    (procEntry eng opts f).path = f.path := by
  unfold procEntry
  cases processFile eng opts f.path f.content <;> rfl

theorem processFiles_eq_map (eng : Engines) (opts : Opts) :
    ∀ tree : List FileEntry,
      processFiles eng opts tree = tree.map (procEntry eng opts)
  | [] => rfl
  | f :: rest => by
    rw [processFiles, List.map_cons, processFiles_eq_map eng opts rest]

theorem processFiles_find_path (eng : Engines) (opts : Opts)
    (tree : List FileEntry) (s : String) :
    (processFiles eng opts tree).find? (fun f => f.path == s) =
      (tree.find? (fun f => f.path == s)).map (procEntry eng opts) := by
  rw [processFiles_eq_map, List.find?_map]
  have h : ((fun f : FileEntry => f.path == s) ∘ procEntry eng opts) =
      (fun f : FileEntry => f.path == s) := by
    funext f
    simp [Function.comp, procEntry_path]
  rw [h]

theorem procEntry_mimetype (eng : Engines) (opts : Opts) (f : FileEntry)
    (h : f.path = "mimetype") : procEntry eng opts f = f := by
  unfold procEntry processFile
  rw [h]
  have h2 : classify (toLowerStr (extname "mimetype")) opts.images =
      Action.skip := by
    cases opts.images <;> decide
  rw [h2, ← h]

theorem find_path_eq_of_perm (t1 t2 : List FileEntry) (hperm : t1.Perm t2)
    (hnd : (t1.map FileEntry.path).Nodup) (s : String) :
    t1.find? (fun f => f.path == s) = t2.find? (fun f => f.path == s) := by
  cases h1 : t1.find? (fun f => f.path == s) with
  | none =>
    cases h2 : t2.find? (fun f => f.path == s) with
    | none => rfl
    | some b =>
      have hb := List.find?_some h2
      have hbm : b ∈ t1 := hperm.mem_iff.2 (List.mem_of_find?_eq_some h2)
      have := List.find?_eq_none.1 h1 b hbm
      simp_all
  | some a =>
    have ha := List.find?_some h1
    have ham : a ∈ t2 := hperm.mem_iff.1 (List.mem_of_find?_eq_some h1)
    cases h2 : t2.find? (fun f => f.path == s) with
    | none =>
      have := List.find?_eq_none.1 h2 a ham
      simp_all
    | some b =>
      have hb := List.find?_some h2
      have hbm : b ∈ t1 := hperm.mem_iff.2 (List.mem_of_find?_eq_some h2)
      have hab : a = b := by
        apply List.inj_on_of_nodup_map hnd (List.mem_of_find?_eq_some h1) hbm
        simp only [beq_iff_eq] at ha hb
        rw [ha, hb]
      rw [hab]

/-! ## Claim theorems -/

/-- C1: for every working tree whose root has a `mimetype` entry, the
archive the assembler produces — after the processing pass, which never
transforms `mimetype` — has as its first entry an entry named
`mimetype`, in store mode (no compression) whatever the configured
level, with content byte-identical to the tree's `mimetype` file. -/
theorem mimetype_first_stored (eng : Engines) (opts : Opts) (level : Nat)
    (tree : List FileEntry) (fe : FileEntry)
    (hfind : tree.find? (fun f => f.path == "mimetype") = some fe) :
    ∃ rest, createEpub (processFiles eng opts tree) level =
      Except.ok (ZipEntry.mk "mimetype" fe.content Mode.store :: rest) := by
  have hpath : fe.path = "mimetype" := by
    have h := List.find?_some hfind
    simpa using h
  have hproc : (processFiles eng opts tree).find?
      (fun f => f.path == "mimetype") = some fe := by
    rw [processFiles_find_path, hfind, Option.map_some',
      procEntry_mimetype eng opts fe hpath]
  have hval : createEpub (processFiles eng opts tree) level =
      Except.ok (ZipEntry.mk "mimetype" fe.content Mode.store ::
        ((List.insertionSort lexLe
            ((processFiles eng opts tree).map FileEntry.path)).filter
          (fun p => p != "mimetype")).map
          (fun p => ZipEntry.mk p (lookupContent (processFiles eng opts tree) p)
            (Mode.deflate level))) := by
    unfold createEpub
    rw [hproc]
  exact ⟨_, hval⟩

theorem mimetype_first_stored_witness :
    sampleTree.find? (fun f => f.path == "mimetype") =
        some { path := "mimetype", content := mimeBytes } ∧
    ∃ rest, createEpub (processFiles mixedEngines defaultOpts sampleTree) 9 =
      Except.ok (ZipEntry.mk "mimetype" mimeBytes Mode.store :: rest) :=
  ⟨by decide,
    mimetype_first_stored mixedEngines defaultOpts 9 sampleTree
      { path := "mimetype", content := mimeBytes } (by decide)⟩

/-- C2: in every archive the assembler produces, the entries after the
`mimetype` head are pairwise in ascending lexicographic order of name,
each is deflated at the caller-specified level, each entry's name is the
relative path of a tree file whose content it carries, and every
non-`mimetype` tree file appears among them. -/
theorem entries_sorted_deflated (tree : List FileEntry) (level : Nat)
    (es : List ZipEntry) (hok : createEpub tree level = Except.ok es) :
    es.tail.Pairwise (fun a b => lexLe a.name b.name) ∧
    (∀ e ∈ es.tail, e.mode = Mode.deflate level) ∧
    (∀ e ∈ es.tail, ∃ f ∈ tree, f.path = e.name ∧ f.content = e.content) ∧
    (∀ f ∈ tree, f.path ≠ "mimetype" → ∃ e ∈ es.tail, e.name = f.path) := by
  unfold createEpub at hok
  cases hfind : tree.find? (fun f => f.path == "mimetype") with
  | none =>
    rw [hfind] at hok
    exact absurd hok (by simp)
  | some mime =>
    rw [hfind] at hok
    simp only [Except.ok.injEq] at hok
    subst hok
    refine ⟨?_, ?_, ?_, ?_⟩
    · apply List.Pairwise.map
        (fun p => ZipEntry.mk p (lookupContent tree p) (Mode.deflate level))
      · intro a b hab
        exact hab
      · exact List.Pairwise.filter _ (List.sorted_insertionSort lexLe _)
    · intro e he
      obtain ⟨p, _, rfl⟩ := List.mem_map.1 he
      rfl
    · intro e he
      obtain ⟨p, hpf, rfl⟩ := List.mem_map.1 he
      have hp1 : p ∈ List.insertionSort lexLe (tree.map FileEntry.path) :=
        (List.mem_filter.1 hpf).1
      rw [List.mem_insertionSort] at hp1
      obtain ⟨f0, hf0, hfp⟩ := List.mem_map.1 hp1
      have hsome : (tree.find? (fun f => f.path == p)).isSome := by
        rw [List.find?_isSome]
        exact ⟨f0, hf0, by simp [hfp]⟩
      obtain ⟨f1, hf1⟩ := Option.isSome_iff_exists.1 hsome
      refine ⟨f1, List.mem_of_find?_eq_some hf1, ?_, ?_⟩
      · have h := List.find?_some hf1
        simpa using h
      · simp [lookupContent, hf1]
    · intro f hf hne
      refine ⟨ZipEntry.mk f.path (lookupContent tree f.path)
        (Mode.deflate level), ?_, rfl⟩
      apply List.mem_map.2
      refine ⟨f.path, ?_, rfl⟩
      apply List.mem_filter.2
      refine ⟨?_, ?_⟩
      · rw [List.mem_insertionSort]
        exact List.mem_map.2 ⟨f, hf, rfl⟩
      · simpa using hne

theorem entries_sorted_deflated_witness :
    createEpub sampleTree 9 = Except.ok sampleArchive ∧
    (sampleArchive.tail.Pairwise (fun a b => lexLe a.name b.name) ∧
     (∀ e ∈ sampleArchive.tail, e.mode = Mode.deflate 9) ∧
     (∀ e ∈ sampleArchive.tail,
        ∃ f ∈ sampleTree, f.path = e.name ∧ f.content = e.content) ∧
     (∀ f ∈ sampleTree, f.path ≠ "mimetype" →
        ∃ e ∈ sampleArchive.tail, e.name = f.path)) :=
  ⟨by decide, entries_sorted_deflated sampleTree 9 sampleArchive (by decide)⟩

/-- C3: for every working tree with no root-level `mimetype` entry, the
assembler fails with the missing-mimetype error — thrown before the
output stream at the destination is opened — and the job exits with
status 1, with nothing written at the output path. -/
theorem missing_mimetype_aborts (eng : Engines) (opts : Opts) (level : Nat)
    (tree : List FileEntry)
    (h : tree.find? (fun f => f.path == "mimetype") = none) :
    createEpub (processFiles eng opts tree) level =
        Except.error "No mimetype file found at root of EPUB. Aborting." ∧
    runJob eng opts level (Except.ok tree) =
      { exitCode := 1, output := none, tmpRemoved := false } := by
  have hproc : (processFiles eng opts tree).find?
      (fun f => f.path == "mimetype") = none := by
    rw [processFiles_find_path, h]
    rfl
  have hcreate : createEpub (processFiles eng opts tree) level =
      Except.error "No mimetype file found at root of EPUB. Aborting." := by
    unfold createEpub
    rw [hproc]
  refine ⟨hcreate, ?_⟩
  simp only [runJob, hcreate]

theorem missing_mimetype_aborts_witness :
    noMimeTree.find? (fun f => f.path == "mimetype") = none ∧
    (createEpub (processFiles idEngines defaultOpts noMimeTree) 9 =
        Except.error "No mimetype file found at root of EPUB. Aborting." ∧
     runJob idEngines defaultOpts 9 (Except.ok noMimeTree) =
        { exitCode := 1, output := none, tmpRemoved := false }) :=
  ⟨by decide, missing_mimetype_aborts idEngines defaultOpts 9 noMimeTree (by decide)⟩

/-- C4: the processing loop catches every transformer error at the
orchestration level: the loop maps each file independently (so every
remaining file is still processed, in order), a file whose transformer
fails keeps its original content, and a file whose transformer succeeds
gets the new content.  Concretely, a batch with one corrupt script and
two valid assets completes with the corrupt file unmodified and both
valid assets transformed. -/
theorem perFile_isolation (eng : Engines) (opts : Opts) (tree : List FileEntry) :
    ((processFiles eng opts tree).length = tree.length ∧
     ∀ i : Nat, (processFiles eng opts tree)[i]? =
       (tree[i]?).map (procEntry eng opts)) ∧
    (∀ f : FileEntry, ∀ e : String,
      processFile eng opts f.path f.content = Except.error e →
        procEntry eng opts f = f) ∧
    (∀ f : FileEntry, ∀ c : Content,
      processFile eng opts f.path f.content = Except.ok c →
        procEntry eng opts f = { path := f.path, content := c }) ∧
    processFiles mixedEngines defaultOpts corruptTree =
      [{ path := "bad.js", content := [1] },
       { path := "ok.js", content := [5, 2] },
       { path := "c.html", content := [7, 9] }] := by
  refine ⟨⟨?_, ?_⟩, ?_, ?_, by decide⟩
  · rw [processFiles_eq_map]
    exact List.length_map _ _
  · intro i
    rw [processFiles_eq_map]
    exact List.getElem?_map ..
  · intro f e h
    unfold procEntry
    rw [h]
  · intro f c h
    unfold procEntry
    rw [h]

/-- C5: the raster write-back policy: whenever `optimizeImage` returns
content, that content is never longer than the input, and it differs
from the input only when strictly shorter. -/
theorem raster_write_back (f : Content → List Plugin → Except String Content)
    (path : String) (q : ℚ) (input out : Content)
    (hok : optimizeImage f path q input = Except.ok out) :
    out.length ≤ input.length ∧
      (out ≠ input → out.length < input.length) := by
  unfold optimizeImage at hok
  split_ifs at hok with h1 h2
  · unfold runImagemin at hok
    cases hfe : f input [Plugin.mozjpeg q] with
    | error e =>
      rw [hfe] at hok
      exact absurd hok (by simp)
    | ok o =>
      rw [hfe] at hok
      simp only [Except.ok.injEq] at hok
      by_cases hlt : o.length < input.length
      · rw [if_pos hlt] at hok
        subst hok
        exact ⟨Nat.le_of_lt hlt, fun _ => hlt⟩
      · rw [if_neg hlt] at hok
        subst hok
        exact ⟨Nat.le_refl _, fun hne => absurd rfl hne⟩
  · unfold runImagemin at hok
    cases hfe : f input
        [Plugin.pngquant (max (1/10 : ℚ) ((q - 30) / 100)) (q / 100)] with
    | error e =>
      rw [hfe] at hok
      exact absurd hok (by simp)
    | ok o =>
      rw [hfe] at hok
      simp only [Except.ok.injEq] at hok
      by_cases hlt : o.length < input.length
      · rw [if_pos hlt] at hok
        subst hok
        exact ⟨Nat.le_of_lt hlt, fun _ => hlt⟩
      · rw [if_neg hlt] at hok
        subst hok
        exact ⟨Nat.le_refl _, fun hne => absurd rfl hne⟩
  · simp only [Except.ok.injEq] at hok
    subst hok
    exact ⟨Nat.le_refl _, fun hne => absurd rfl hne⟩

theorem raster_write_back_witness :
    optimizeImage shrinkImagemin "img.jpg" 80 [1, 2, 3] = Except.ok [7] ∧
    (([7] : Content).length ≤ ([1, 2, 3] : Content).length ∧
      (([7] : Content) ≠ [1, 2, 3] →
        ([7] : Content).length < ([1, 2, 3] : Content).length)) :=
  ⟨by decide,
    raster_write_back shrinkImagemin "img.jpg" 80 [1, 2, 3] [7] (by decide)⟩

/-- C6 (counterexample): the claim "the working-tree temp directory is
removed on every exit path" fails on the code: on a fatal path —
extraction error, or missing `mimetype` at assembly — the job exits with
status 1 and the temp directory is not removed (`removeDir` runs only
after `createEpub` resolves). -/
theorem cleanup_skipped_on_fatal :
    (runJob idEngines defaultOpts 9 (Except.error "corrupt zip")).exitCode = 1 ∧
    (runJob idEngines defaultOpts 9 (Except.error "corrupt zip")).tmpRemoved
      = false ∧
    (runJob idEngines defaultOpts 9 (Except.ok noMimeTree)).exitCode = 1 ∧
    (runJob idEngines defaultOpts 9 (Except.ok noMimeTree)).tmpRemoved
      = false := by
  decide

/-- C6 (amended): the working-tree temp directory is removed exactly on
the successful exit path (which includes runs with per-file transformer
failures, since those are swallowed inside the processing loop); on
every fatal path — extraction error, missing-mimetype error, assembly
error — the cleanup step is skipped and the directory is left behind. -/
theorem cleanup_iff_success (eng : Engines) (opts : Opts) (level : Nat)
    (extracted : Except String (List FileEntry)) :
    (runJob eng opts level extracted).tmpRemoved = true ↔
      (runJob eng opts level extracted).exitCode = 0 := by
  cases extracted with
  | error e => simp [runJob]
  | ok tree =>
    cases hce : createEpub (processFiles eng opts tree) level with
    | error e => simp [runJob, hce]
    | ok entries => simp [runJob, hce]

/-- C7: the action applied to a file is determined by its lower-cased
extension through the fixed table of `classify`: the five markup
extensions map to markup, `.css` to style, `.js` to script, `.svg` to
vector, the three raster extensions to raster exactly when image
optimization is enabled and to skip when it is disabled, every other
extension to skip; and a skipped file's content passes through the
processing step unchanged. -/
theorem classifier_table :
    (∀ b, classify ".html" b = Action.markup) ∧
    (∀ b, classify ".xhtml" b = Action.markup) ∧
    (∀ b, classify ".htm" b = Action.markup) ∧
    (∀ b, classify ".xml" b = Action.markup) ∧
    (∀ b, classify ".opf" b = Action.markup) ∧
    (∀ b, classify ".css" b = Action.style) ∧
    (∀ b, classify ".js" b = Action.script) ∧
    (∀ b, classify ".svg" b = Action.vector) ∧
    (classify ".jpg" true = Action.raster ∧
      classify ".jpeg" true = Action.raster ∧
      classify ".png" true = Action.raster) ∧
    (classify ".jpg" false = Action.skip ∧
      classify ".jpeg" false = Action.skip ∧
      classify ".png" false = Action.skip) ∧
    (∀ ext b, ext ∉ ([".html", ".xhtml", ".htm", ".xml", ".opf", ".css",
      ".js", ".svg", ".jpg", ".jpeg", ".png"] : List String) →
      classify ext b = Action.skip) ∧
    (∀ eng opts path content,
      classify (toLowerStr (extname path)) opts.images = Action.skip →
        processFile eng opts path content = Except.ok content) := by
  refine ⟨fun b => by cases b <;> decide, fun b => by cases b <;> decide,
    fun b => by cases b <;> decide, fun b => by cases b <;> decide,
    fun b => by cases b <;> decide, fun b => by cases b <;> decide,
    fun b => by cases b <;> decide, fun b => by cases b <;> decide,
    by decide, by decide, ?_, ?_⟩
  · intro ext b h
    unfold classify
    split_ifs with c1 c2 c3 c4 c5
    · rcases c1 with c | c | c | c | c <;> simp [c] at h
    · simp [c2] at h
    · simp [c3] at h
    · rcases c4.2 with c | c | c <;> simp [c] at h
    · simp [c5] at h
    · rfl
  · intro eng opts path content h
    unfold processFile
    rw [h]

theorem classifier_table_witness :
    classify ".ttf" true = Action.skip ∧
    processFile idEngines { images := true, quality := 80 }
      "fonts/font.ttf" [4, 2] = Except.ok [4, 2] := by
  constructor
  · exact classifier_table.2.2.2.2.2.2.2.2.2.2.1 ".ttf" true (by decide)
  · exact classifier_table.2.2.2.2.2.2.2.2.2.2.2 idEngines
      { images := true, quality := 80 } "fonts/font.ttf" [4, 2] (by decide)

/-- C8: for every quality `q`, a `.png` file is handed to the imagemin
engine with exactly the pngquant quality range
`[max(0.1, (q-30)/100), q/100]`. -/
theorem png_quality_range (f : Content → List Plugin → Except String Content)
    (path : String) (q : ℚ) (input : Content)
    (h : toLowerStr (extname path) = ".png") :
    optimizeImage f path q input =
      runImagemin f input
        [Plugin.pngquant (max (1/10 : ℚ) ((q - 30) / 100)) (q / 100)] := by
  unfold optimizeImage
  rw [h]
  rw [if_neg (by decide), if_pos rfl]

theorem png_quality_range_witness :
    toLowerStr (extname "images/cover.png") = ".png" ∧
    optimizeImage idEngines.imageminBuffer "images/cover.png" 80 [1, 2] =
      runImagemin idEngines.imageminBuffer [1, 2]
        [Plugin.pngquant (max (1/10 : ℚ) ((80 - 30) / 100)) (80 / 100)] :=
  ⟨by decide,
    png_quality_range idEngines.imageminBuffer "images/cover.png" 80 [1, 2]
      (by decide)⟩

/-- C9: the assembler is deterministic: for a fixed working-tree state —
two enumerations of the same set of files (with distinct paths, as on a
filesystem) in any `walk` order — and a fixed level, it produces the
same result, with identical entry order and content. -/
theorem assembler_deterministic (t1 t2 : List FileEntry) (level : Nat)
    (hperm : t1.Perm t2) (hnd : (t1.map FileEntry.path).Nodup) :
    createEpub t1 level = createEpub t2 level := by
  have hlook : ∀ p, lookupContent t1 p = lookupContent t2 p := by
    intro p
    unfold lookupContent
    rw [find_path_eq_of_perm t1 t2 hperm hnd p]
  have hsort : List.insertionSort lexLe (t1.map FileEntry.path) =
      List.insertionSort lexLe (t2.map FileEntry.path) := by
    refine List.eq_of_perm_of_sorted ?_
      (List.sorted_insertionSort lexLe (t1.map FileEntry.path))
      (List.sorted_insertionSort lexLe (t2.map FileEntry.path))
    exact ((List.perm_insertionSort _ _).trans
      (hperm.map _)).trans (List.perm_insertionSort _ _).symm
  unfold createEpub
  rw [find_path_eq_of_perm t1 t2 hperm hnd "mimetype", hsort]
  cases t2.find? (fun f => f.path == "mimetype") with
  | none => rfl
  | some mime =>
    have hfun : (fun p => ZipEntry.mk p (lookupContent t1 p)
          (Mode.deflate level)) =
        (fun p => ZipEntry.mk p (lookupContent t2 p) (Mode.deflate level)) := by
      funext p
      rw [hlook p]
    simp only [hfun]

theorem assembler_deterministic_witness :
    sampleTree.Perm sampleTreePerm ∧
    (sampleTree.map FileEntry.path).Nodup ∧
    createEpub sampleTree 9 = createEpub sampleTreePerm 9 :=
  ⟨by decide, by decide,
    assembler_deterministic sampleTree sampleTreePerm 9 (by decide) (by decide)⟩

/-- C10: the script minifier writes replacement content only when the
engine returns truthy (non-empty) code: an engine error is rethrown with
no write, a missing or empty code result leaves the file byte-for-byte
unchanged, and a non-empty code result replaces the content. -/
theorem js_minify_write_policy (terserMin : Content → TerserResult)
    (src : Content) :
    (∀ e, (terserMin src).error = some e →
      minifyJsFile terserMin src = Except.error e) ∧
    ((terserMin src).error = none → (terserMin src).code = none →
      minifyJsFile terserMin src = Except.ok src) ∧
    (∀ c, (terserMin src).error = none → (terserMin src).code = some c →
      c.isEmpty = true → minifyJsFile terserMin src = Except.ok src) ∧
    (∀ c, (terserMin src).error = none → (terserMin src).code = some c →
      c.isEmpty = false → minifyJsFile terserMin src = Except.ok c) := by
  refine ⟨?_, ?_, ?_, ?_⟩
  · intro e he
    simp only [minifyJsFile]
    rw [he]
  · intro he hc
    simp only [minifyJsFile]
    rw [he, hc]
  · intro c he hc hemp
    simp only [minifyJsFile]
    rw [he, hc]
    simp [hemp]
  · intro c he hc hemp
    simp only [minifyJsFile]
    rw [he, hc]
    simp [hemp]

theorem js_minify_write_policy_witness :
    minifyJsFile errTerser [1] = Except.error "boom" ∧
    minifyJsFile emptyTerser [1] = Except.ok [1] ∧
    minifyJsFile okTerser [1] = Except.ok ([1] ++ [2]) := by
  refine ⟨?_, ?_, ?_⟩
  · exact (js_minify_write_policy errTerser [1]).1 "boom" (by decide)
  · exact (js_minify_write_policy emptyTerser [1]).2.2.1 []
      (by decide) (by decide) (by decide)
  · exact (js_minify_write_policy okTerser [1]).2.2.2 ([1] ++ [2])
      (by decide) (by decide) (by decide)

end EpubCompress
